import Mathlib

/-!
Verification of the Bitcoin library (script engine, opcode library,
transaction sighash/verification pipeline).

This file is a shallow embedding of the Python sources (`script.py`,
`op.py`, `tx.py`, `helper.py`) into Lean:

* byte strings are `List Nat` (each entry a byte value `< 256`; the Python
  code never produces out-of-range entries and our theorems never rely on
  out-of-range behaviour);
* a Python function that can raise an uncaught exception is modelled with
  `Option` (`none` = the call raises);
* the Python `list` used as a stack pushes and pops at the *tail*; we
  represent stacks with the **top at the head** of the `List`, so Python
  `stack[-1]` is `.head`, `stack.append x` is `x :: ·`, and Python's
  bottom-first order is the reverse of ours;
* the external capabilities (hashing, signature parsing/verification,
  previous-output lookup) are parameters (`Ext`, `fetch`), exactly the
  call contracts the code consumes.
-/

namespace BitcoinLib

/-- A byte string: Python `bytes` as a list of byte values. -/
abbrev B := List Nat

/-! ## helper.py: little-endian and varint codecs -/

/-- helper.little_endian_to_int: `int.from_bytes(b, 'little')`. -/
def little_endian_to_int : B → Nat
  | [] => 0
  | b :: bs => b + 256 * little_endian_to_int bs

/-- helper.int_to_little_endian: `num.to_bytes(length, 'little')`, on the
in-range domain `num < 256 ^ length` (Python raises `OverflowError`
outside it; callers below that can hit the overflow case guard with
`int_to_little_endian_chk`). -/
def int_to_little_endian : Nat → Nat → B
  | _, 0 => []
  | num, l + 1 => num % 256 :: int_to_little_endian (num / 256) l

/-- `int_to_little_endian` with Python's `OverflowError` made explicit:
`none` iff `num ≥ 256 ^ length`. -/
def int_to_little_endian_chk (num l : Nat) : Option B :=
  if num < 256 ^ l then some (int_to_little_endian num l) else none

/-- helper.encode_varint. `none` is the `RuntimeError` raised for
integers of 2^64 and above. -/
def encode_varint (i : Nat) : Option B :=
  if i < 0xfd then some [i]
  else if i < 0x10000 then some (0xfd :: int_to_little_endian i 2)
  else if i < 0x100000000 then some (0xfe :: int_to_little_endian i 4)
  else if i < 0x10000000000000000 then some (0xff :: int_to_little_endian i 8)
  else none

/-- helper.read_varint over a byte-list stream; returns the value and the
unconsumed rest. `none` is the `IndexError` from `stream.read(1)[0]` on an
exhausted stream. A short read of the 2/4/8-byte payload does not raise in
Python (`s.read` just returns fewer bytes), and `List.take` matches that. -/
def read_varint : B → Option (Nat × B)
  | [] => none
  | i :: rest =>
    if i = 0xfd then some (little_endian_to_int (rest.take 2), rest.drop 2)
    else if i = 0xfe then some (little_endian_to_int (rest.take 4), rest.drop 4)
    else if i = 0xff then some (little_endian_to_int (rest.take 8), rest.drop 8)
    else some (i, rest)

/-- `int.from_bytes(h, 'big')`, used to turn a sighash digest into the
integer `z`. -/
def int_from_bytes_big (bs : B) : Nat :=
  bs.foldl (fun acc c => acc * 256 + c) 0

/-! ## The command type

`Script.parse` produces a heterogeneous Python list whose elements are
either `int` opcodes or `bytes` push elements; `Cmd` is that tagged union.
Witness items live in the same universe (`tx.parse_segwit` stores the
`int` `0` for a declared zero-length item, and `bytes` otherwise). -/

/-- One script command: an opcode byte or a data push. -/
inductive Cmd where
  | op (n : Nat)
  | data (bs : B)
deriving DecidableEq, Repr

/-- Whether a command (or witness item) is a byte string. -/
def Cmd.isBytes : Cmd → Bool
  | .op _ => false
  | .data _ => true

/-! ## script.py: parse and serialize -/

/-- The body of `Script.parse`'s `while count < length` loop, reading from
the byte-list stream `s`. Returns the commands read, the final `count`,
and the unconsumed stream. `none` is the `IndexError` raised by
`current[0]` when the stream is exhausted while `count < length`. Note the
loop trusts the declared push lengths: `count` advances by the declared
`n` even if the stream has fewer bytes (`s.read` truncates silently).
The extra fuel argument makes the recursion structural (each iteration
consumes at least one stream byte, so `s.length + 1` fuel always
suffices; see `parseLoop_fuel`). -/
def parseLoop : Nat → B → Nat → Nat → Option (List Cmd × Nat × B)
  | 0, _, _, _ => none
  | fuel + 1, s, length, count =>
    if count < length then
      match s with
      | [] => none
      | b :: rest =>
        if 1 ≤ b ∧ b ≤ 75 then
          (parseLoop fuel (rest.drop b) length (count + 1 + b)).map
            fun (cmds, c, s') => (.data (rest.take b) :: cmds, c, s')
        else if b = 76 then
          let n := little_endian_to_int (rest.take 1)
          (parseLoop fuel ((rest.drop 1).drop n) length (count + 1 + n + 1)).map
            fun (cmds, c, s') => (.data ((rest.drop 1).take n) :: cmds, c, s')
        else if b = 77 then
          let n := little_endian_to_int (rest.take 2)
          (parseLoop fuel ((rest.drop 2).drop n) length (count + 1 + n + 2)).map
            fun (cmds, c, s') => (.data ((rest.drop 2).take n) :: cmds, c, s')
        else
          (parseLoop fuel rest length (count + 1)).map
            fun (cmds, c, s') => (.op b :: cmds, c, s')
    else
      some ([], count, s)

/-- Script.parse over a byte-list stream: read the varint length, run the
loop, and require `count = length` (`SyntaxError` otherwise). Returns the
command list and the unconsumed rest of the stream. The loop consumes at
least one stream byte per iteration, so `s.length + 1` fuel can never run
out (`parseLoop_fuel` below). -/
def Script.parse (s : B) : Option (List Cmd × B) := do
  let (length, s) ← read_varint s
  let (cmds, count, s') ← parseLoop (s.length + 1) s length 0
  if count = length then some (cmds, s') else none

/-- Script.raw_serialize. `none` covers the `ValueError` for an element
longer than 520 bytes and the `OverflowError` from
`int_to_little_endian(cmd, 1)` on an opcode value of 256 or more. -/
def rawSerialize : List Cmd → Option B
  | [] => some []
  | .op n :: cs =>
    if n < 256 then (rawSerialize cs).map fun r => n :: r
    else none
  | .data bs :: cs =>
    let length := bs.length
    (rawSerialize cs).bind fun r =>
      if length ≤ 75 then some (length :: bs ++ r)
      else if 75 < length ∧ length < 256 then some (76 :: length :: bs ++ r)
      else if 256 ≤ length ∧ length ≤ 520 then
        some (77 :: int_to_little_endian length 2 ++ bs ++ r)
      else none

/-- Script.serialize: the raw serialization prefixed with its length as a
varint. -/
def Script.serialize (cmds : List Cmd) : Option B := do
  let r ← rawSerialize cmds
  let v ← encode_varint r.length
  some (v ++ r)

/-! ## op.py: the minimal signed integer encoding -/

/-- The `while abs_num: result.append(abs_num & 0xff); abs_num >>= 8` loop
of op.encode_num, with a structural fuel argument (the value strictly
shrinks under `/ 256`, so `n` units of fuel always suffice for `n`). -/
def natBytesLEF : Nat → Nat → B
  | 0, _ => []
  | fuel + 1, n => if n = 0 then [] else n % 256 :: natBytesLEF fuel (n / 256)

/-- The little-endian bytes of a number, empty for 0 (op.encode_num's
accumulation loop). -/
def natBytesLE (n : Nat) : B := natBytesLEF n n

/-- The last byte of a byte string (Python `result[-1]`), with `0` for the
empty string; `natBytesLE` of a nonzero number is never empty. -/
def lastByte : B → Nat
  | [] => 0
  | [b] => b
  | _ :: b :: bs => lastByte (b :: bs)

/-- Python `result[-1] |= 0x80`: set the top bit of the last byte. -/
def setTopBit : B → B
  | [] => []
  | [b] => [b ||| 0x80]
  | b :: b' :: bs => b :: setTopBit (b' :: bs)

/-- op.encode_num: sign-magnitude little-endian minimal encoding. -/
def encode_num (num : Int) : B :=
  if num = 0 then []
  else
    let result := natBytesLE num.natAbs
    let negative := num < 0
    if lastByte result &&& 0x80 ≠ 0 then
      if negative then result ++ [0x80] else result ++ [0]
    else if negative then setTopBit result
    else result

/-- op.decode_num: read a little-endian magnitude from all but the sign
bit of the last byte; negate if that bit is set. -/
def decode_num (element : B) : Int :=
  match element.reverse with
  | [] => 0
  | b0 :: rest =>
    let negative := b0 &&& 0x80 ≠ 0
    let r0 : Nat := if negative then b0 &&& 0x7f else b0
    let result := rest.foldl (fun acc c => acc * 256 + c) r0
    if negative then -(result : Int) else (result : Int)

/-! ## External capabilities (spec section 6)

Hashing and the Signature Capability are consumed as black boxes; the
whole development is parameterized over them. `checksig` bundles
`S256Point.parse` + `Signature.parse` + `point.verify` as used inside
`op_checksig`'s `try` block: `none` means one of them raised
`ValueError`/`SyntaxError` (malformed encodings), `some b` is the verify
outcome. -/
structure Ext where
  sha256 : B → B
  hash160 : B → B
  hash256 : B → B
  checksig : B → B → Int → Option Bool

/-! ## Python list indexing

The evaluation stack is a Python list with the bottom at index 0; our
`List B` carries the top first, so it is the reverse of the Python list.
`pyGet l i` is Python `py_list[i]` on that reversed view; `none` is the
`IndexError`. -/

/-- Python `l[i]` (with negative indices counting from the end), where `l`
is our top-first stack and the Python list is `l.reverse`. -/
def pyGet (l : List B) (i : Int) : Option B :=
  if 0 ≤ i then
    if i < (l.length : Int) then l[l.length - 1 - i.toNat]? else none
  else
    if -i ≤ (l.length : Int) then l[(-i).toNat - 1]? else none

/-- Python `l.pop(i)`: the removed element and the remaining list. -/
def pyPop (l : List B) (i : Int) : Option (B × List B) :=
  let idx : Option Nat :=
    if 0 ≤ i then
      if i < (l.length : Int) then some (l.length - 1 - i.toNat) else none
    else
      if -i ≤ (l.length : Int) then some ((-i).toNat - 1) else none
  idx.bind fun k => (l[k]?).map fun e => (e, l.eraseIdx k)

/-! ## op.py: the opcode library

Each function mirrors the Python one. The result is
`Option (Bool × new state)`: `none` is an uncaught exception, and the
`Bool` is the *truthiness* of the Python return value as tested by
`Script.evaluate`'s `if not operation(...)` (so a fall-off-the-end
`return None` is `false`). -/

/-- op.op_0 through op.op_16 and op.op_1negate push
`encode_num` of the literal; this is the shared body. -/
def pushNum (k : Int) (stack : List B) : Option (Bool × List B) :=
  some (true, encode_num k :: stack)

/-- op.op_nop. -/
def op_nop (stack : List B) : Option (Bool × List B) :=
  some (true, stack)

/-- op.op_dup. -/
def op_dup (stack : List B) : Option (Bool × List B) :=
  match stack with
  | [] => some (false, stack)
  | top :: _ => some (true, top :: stack)

/-- op.op_hash256. -/
def op_hash256 (ext : Ext) (stack : List B) : Option (Bool × List B) :=
  match stack with
  | [] => some (false, stack)
  | e :: rest => some (true, ext.hash256 e :: rest)

/-- op.op_hash160. -/
def op_hash160 (ext : Ext) (stack : List B) : Option (Bool × List B) :=
  match stack with
  | [] => some (false, stack)
  | e :: rest => some (true, ext.hash160 e :: rest)

/-- op.op_checksig: pop the SEC public key and the DER signature (whose
final hash-type byte is stripped with `[:-1]`), call the Signature
Capability, and push `encode_num 1`/`encode_num 0` for the verify
outcome. A `ValueError`/`SyntaxError` from the capability (malformed
encodings) is caught and the opcode *returns False* — it does not push
anything. -/
def op_checksig (ext : Ext) (z : Int) (stack : List B) : Option (Bool × List B) :=
  match stack with
  | sec_pubkey :: sig :: rest =>
    let der_signature := sig.dropLast
    match ext.checksig sec_pubkey der_signature z with
    | none => some (false, rest)
    | some valid =>
      if valid then some (true, encode_num 1 :: rest)
      else some (true, encode_num 0 :: rest)
  | _ => some (false, stack)

/-- op.op_add. -/
def op_add (stack : List B) : Option (Bool × List B) :=
  match stack with
  | e1 :: e2 :: rest =>
    some (true, encode_num (decode_num e1 + decode_num e2) :: rest)
  | _ => some (false, stack)

/-- op.op_equal. -/
def op_equal (stack : List B) : Option (Bool × List B) :=
  match stack with
  | e1 :: e2 :: rest =>
    if e1 = e2 then some (true, encode_num 1 :: rest)
    else some (true, encode_num 0 :: rest)
  | _ => some (false, stack)

/-- op.op_verify. -/
def op_verify (stack : List B) : Option (Bool × List B) :=
  match stack with
  | [] => some (false, stack)
  | e :: rest =>
    if decode_num e = 0 then some (false, rest) else some (true, rest)

/-- op.op_return. -/
def op_return (stack : List B) : Option (Bool × List B) :=
  some (false, stack)

/-- op.op_toaltstack. -/
def op_toaltstack (stack altstack : List B) : Option (Bool × List B × List B) :=
  match stack with
  | [] => some (false, stack, altstack)
  | e :: rest => some (true, rest, e :: altstack)

/-- op.op_fromaltstack. Note the guard tests the *main* stack
(`len(stack) < 1`), not the altstack it pops from: with a non-empty main
stack and an empty altstack, `altstack.pop()` raises `IndexError`
(`none`). -/
def op_fromaltstack (stack altstack : List B) : Option (Bool × List B × List B) :=
  match stack with
  | [] => some (false, stack, altstack)
  | _ =>
    match altstack with
    | [] => none
    | a :: arest => some (true, a :: stack, arest)

/-- op.op_2drop. -/
def op_2drop (stack : List B) : Option (Bool × List B) :=
  match stack with
  | _ :: _ :: rest => some (true, rest)
  | _ => some (false, stack)

/-- op.op_2dup. -/
def op_2dup (stack : List B) : Option (Bool × List B) :=
  match stack with
  | e1 :: e2 :: rest => some (true, e1 :: e2 :: e1 :: e2 :: rest)
  | _ => some (false, stack)

/-- op.op_3dup. -/
def op_3dup (stack : List B) : Option (Bool × List B) :=
  match stack with
  | e1 :: e2 :: e3 :: rest =>
    some (true, e1 :: e2 :: e3 :: e1 :: e2 :: e3 :: rest)
  | _ => some (false, stack)

/-- op.op_2over: copy the pair two pairs down (Python
`stack.extend(stack[-4:-2])`). -/
def op_2over (stack : List B) : Option (Bool × List B) :=
  match stack with
  | t1 :: t2 :: t3 :: t4 :: rest =>
    some (true, t3 :: t4 :: t1 :: t2 :: t3 :: t4 :: rest)
  | _ => some (false, stack)

/-- op.op_2rot: Python `stack[-6:] = stack[-4:] + stack[-6:-4]`. -/
def op_2rot (stack : List B) : Option (Bool × List B) :=
  match stack with
  | t1 :: t2 :: t3 :: t4 :: t5 :: t6 :: rest =>
    some (true, t5 :: t6 :: t1 :: t2 :: t3 :: t4 :: rest)
  | _ => some (false, stack)

/-- op.op_2swap: Python `stack[-4:] = stack[-2:] + stack[-4:-2]`. -/
def op_2swap (stack : List B) : Option (Bool × List B) :=
  match stack with
  | t1 :: t2 :: t3 :: t4 :: rest =>
    some (true, t3 :: t4 :: t1 :: t2 :: rest)
  | _ => some (false, stack)

/-- op.op_ifdup. -/
def op_ifdup (stack : List B) : Option (Bool × List B) :=
  match stack with
  | [] => some (false, stack)
  | e :: _ =>
    if decode_num e ≠ 0 then some (true, e :: stack) else some (true, stack)

/-- op.op_depth. -/
def op_depth (stack : List B) : Option (Bool × List B) :=
  some (true, encode_num (stack.length : Int) :: stack)

/-- op.op_drop. -/
def op_drop (stack : List B) : Option (Bool × List B) :=
  match stack with
  | [] => some (false, stack)
  | _ :: rest => some (true, rest)

/-- op.op_nip: Python `stack.pop(-2)`. -/
def op_nip (stack : List B) : Option (Bool × List B) :=
  match stack with
  | e1 :: _ :: rest => some (true, e1 :: rest)
  | _ => some (false, stack)

/-- op.op_over. -/
def op_over (stack : List B) : Option (Bool × List B) :=
  match stack with
  | _ :: e2 :: _ => some (true, e2 :: stack)
  | _ => some (false, stack)

/-- op.op_pick: pop the index `n` and append `stack[-n-1]`. The code only
guards `len(stack) < n + 1`; a decoded `n = -1` passes the guard and
copies the *bottom* element (Python `stack[0]`), and `n ≤ -2` indexes
from the front and can raise `IndexError` (`none`). -/
def op_pick (stack : List B) : Option (Bool × List B) :=
  match stack with
  | [] => some (false, stack)
  | top :: rest =>
    let n := decode_num top
    if (rest.length : Int) < n + 1 then some (false, rest)
    else (pyGet rest (-n - 1)).map fun e => (true, e :: rest)

/-- op.op_roll: pop the index `n` and move `stack.pop(-n-1)` to the top.
The Python function has no `return True`: on the successful path it
returns `None`, which is falsy, so the `Bool` here is `false`. -/
def op_roll (stack : List B) : Option (Bool × List B) :=
  match stack with
  | [] => some (false, stack)
  | top :: rest =>
    let n := decode_num top
    if (rest.length : Int) < n + 1 then some (false, rest)
    else (pyPop rest (-n - 1)).map fun (e, rest') => (false, e :: rest')

/-- op.op_rot: Python `stack.append(stack.pop(-3))`. -/
def op_rot (stack : List B) : Option (Bool × List B) :=
  match stack with
  | e1 :: e2 :: e3 :: rest => some (true, e3 :: e1 :: e2 :: rest)
  | _ => some (false, stack)

/-! ## op.py: control-flow reconstruction (op_if / op_notif) -/

/-- The shared `while len(cmds) > 0` scan of op.op_if and op.op_notif:
consume commands from the front, accumulating into the if-branch (or,
after an `OP_ELSE` at nesting depth 1, the else-branch), tracking the
number of `OP_ENDIF`s still needed. Returns `some (ifCmds, elseCmds,
rest)` when the terminating `OP_ENDIF` is found, `none` when the stream
is exhausted first (the `found = False` exit). -/
def scanBranches (cmds : List Cmd) (numEndifs : Nat) (ifCmds elseCmds : List Cmd)
    (inElse : Bool) : Option (List Cmd × List Cmd × List Cmd) :=
  match cmds with
  | [] => none
  | cmd :: rest =>
    let push : List Cmd × List Cmd :=
      if inElse then (ifCmds, elseCmds ++ [cmd]) else (ifCmds ++ [cmd], elseCmds)
    match cmd with
    | .op n =>
      if n = 99 ∨ n = 100 then
        scanBranches rest (numEndifs + 1) push.1 push.2 inElse
      else if numEndifs = 1 ∧ n = 103 then
        scanBranches rest numEndifs ifCmds elseCmds true
      else if n = 104 then
        if numEndifs = 1 then some (ifCmds, elseCmds, rest)
        else scanBranches rest (numEndifs - 1) push.1 push.2 inElse
      else
        scanBranches rest numEndifs push.1 push.2 inElse
    | .data _ =>
      scanBranches rest numEndifs push.1 push.2 inElse

/-- op.op_if. Returns the Python return value's truthiness, the stack,
and the (destructively rebuilt) command stream: on the `found = False`
exit the stream has been consumed entirely and the stack is untouched
(the pop happens only after a successful scan). -/
def op_if (stack : List B) (cmds : List Cmd) : Bool × List B × List Cmd :=
  match stack with
  | [] => (false, stack, cmds)
  | elem :: stackRest =>
    match scanBranches cmds 1 [] [] false with
    | none => (false, elem :: stackRest, [])
    | some (ifCmds, elseCmds, rest) =>
      if decode_num elem = 0 then (true, stackRest, elseCmds ++ rest)
      else (true, stackRest, ifCmds ++ rest)

/-- op.op_notif: the same scan as op.op_if with the accumulator choice
inverted at the splice. -/
def op_notif (stack : List B) (cmds : List Cmd) : Bool × List B × List Cmd :=
  match stack with
  | [] => (false, stack, cmds)
  | elem :: stackRest =>
    match scanBranches cmds 1 [] [] false with
    | none => (false, elem :: stackRest, [])
    | some (ifCmds, elseCmds, rest) =>
      if decode_num elem = 0 then (true, stackRest, ifCmds ++ rest)
      else (true, stackRest, elseCmds ++ rest)

/-! ## script.py: Script.evaluate -/

/-- script.p2pkh_script: `Script([0x76, 0xa9, h160, 0x88, 0xac])`. The
middle entry is whatever Python value is passed (bytes from the stack in
`evaluate`, a parsed command in `sig_hash_bip143`). -/
def p2pkh_script (h : Cmd) : List Cmd :=
  [.op 0x76, .op 0xa9, h, .op 0x88, .op 0xac]

/-- script.p2wpkh_script: `Script([0x00, h160])`. -/
def p2wpkh_script (h160 : B) : List Cmd := [.op 0x00, .data h160]

/-- script.p2wsh_script: `Script([0x00, h256])`. -/
def p2wsh_script (h256 : B) : List Cmd := [.op 0x00, .data h256]

/-- Outcome of the three runtime template rules checked after a data
push. -/
inductive RuleRes where
  | crash
  | fail
  | ok (cmds : List Cmd) (stack : List B)

/-- The three runtime template rules of `Script.evaluate`, checked in
source order (p2wsh, then p2wpkh, then p2sh) after `stack.append(cmd)`;
`bs` is the element just pushed, `stack` already contains it. Each rule
sees the state left by the previous one. `crash` covers: slicing/indexing
a `None` or empty witness, hashing an `int` witness item, and a failing
`Script.parse` of an injected script. -/
def applyRules (ext : Ext) (witness : Option (List Cmd)) (cmds : List Cmd)
    (stack : List B) (bs : B) : RuleRes :=
  -- p2wsh rule: stack is exactly [witness-version b'', 32-byte hash].
  let step1 : RuleRes :=
    match stack with
    | [s1, s0] =>
      if s0 = [] ∧ s1.length = 32 then
        match witness with
        | none => .crash
        | some w =>
          let cmds := cmds ++ w.dropLast
          match w.getLast? with
          | none => .crash
          | some (.op _) => .crash
          | some (.data ws) =>
            if s1 ≠ ext.sha256 ws then .fail
            else
              match encode_varint ws.length with
              | none => .crash
              | some v =>
                match Script.parse (v ++ ws) with
                | none => .crash
                | some (wcmds, _) => .ok (cmds ++ wcmds) []
      else .ok cmds stack
    | _ => .ok cmds stack
  match step1 with
  | .crash => .crash
  | .fail => .fail
  | .ok cmds stack =>
    -- p2wpkh rule: stack is exactly [b'', 20-byte hash].
    let step2 : RuleRes :=
      match stack with
      | [s1, s0] =>
        if s0 = [] ∧ s1.length = 20 then
          match witness with
          | none => .crash
          | some w => .ok (cmds ++ w ++ p2pkh_script (.data s1)) []
        else .ok cmds stack
      | _ => .ok cmds stack
    match step2 with
    | .crash => .crash
    | .fail => .fail
    | .ok cmds stack =>
      -- p2sh rule: the remaining commands are exactly
      -- [OP_HASH160, 20-byte hash, OP_EQUAL].
      match cmds with
      | [.op 0xa9, .data h, .op 0x87] =>
        if h.length = 20 then
          match op_hash160 ext stack with
          | some (true, st) =>
            match op_equal (h :: st) with
            | some (true, st) =>
              match op_verify st with
              | some (true, st) =>
                match encode_varint bs.length with
                | none => .crash
                | some v =>
                  match Script.parse (v ++ bs) with
                  | none => .crash
                  | some (rcmds, _) => .ok rcmds st
              | _ => .fail
            | _ => .fail
          | _ => .fail
        else .ok cmds stack
      | _ => .ok cmds stack

/-- All opcodes dispatched as plain `operation(stack)` by
`Script.evaluate` (everything except 99/100, 107/108 and 172, which get
extra context). `none` is the `KeyError` from `OP_CODE_FUNCTIONS[cmd]`
for a byte not in the table (including 173–175 and 177/178, whose special
branches in `evaluate` are dead because the lookup raises first). -/
def opBasic (ext : Ext) (n : Nat) (stack : List B) : Option (Bool × List B) :=
  if n = 0 then pushNum 0 stack
  else if n = 79 then pushNum (-1) stack
  else if 81 ≤ n ∧ n ≤ 96 then pushNum ((n : Int) - 80) stack
  else if n = 97 then op_nop stack
  else if n = 105 then op_verify stack
  else if n = 106 then op_return stack
  else if n = 109 then op_2drop stack
  else if n = 110 then op_2dup stack
  else if n = 111 then op_3dup stack
  else if n = 112 then op_2over stack
  else if n = 113 then op_2rot stack
  else if n = 114 then op_2swap stack
  else if n = 115 then op_ifdup stack
  else if n = 116 then op_depth stack
  else if n = 117 then op_drop stack
  else if n = 118 then op_dup stack
  else if n = 119 then op_nip stack
  else if n = 120 then op_over stack
  else if n = 121 then op_pick stack
  else if n = 122 then op_roll stack
  else if n = 123 then op_rot stack
  else if n = 135 then op_equal stack
  else if n = 147 then op_add stack
  else if n = 169 then op_hash160 ext stack
  else if n = 170 then op_hash256 ext stack
  else if n = 176 ∨ (179 ≤ n ∧ n ≤ 185) then op_nop stack
  else none

/-- Result of the `while len(cmds) > 0` loop of `Script.evaluate`:
`finish` is normal exhaustion with the final stack, `fail` an opcode (or
template rule) returning falsy, `crash` an uncaught exception, `spin`
fuel exhaustion (the Python loop is not guaranteed to terminate: a
template rule can re-splice commands indefinitely, cf. spec section 5). -/
inductive LoopRes where
  | crash
  | fail
  | finish (stack : List B)
  | spin
deriving DecidableEq, Repr

/-- The command-dispatch loop of `Script.evaluate`, with explicit fuel.
The Python signature also takes `version`, `locktime` and `sequence` for
opcodes 177/178, but those opcodes are missing from `OP_CODE_FUNCTIONS`,
so the dict lookup raises `KeyError` before the parameters are ever read;
they are omitted here. -/
def evalLoop (ext : Ext) (z : Int) (witness : Option (List Cmd)) :
    Nat → List Cmd → List B → List B → LoopRes
  | 0, _, _, _ => .spin
  | _ + 1, [], stack, _ => .finish stack
  | fuel + 1, cmd :: cmds, stack, altstack =>
    match cmd with
    | .op n =>
      if n = 99 then
        match op_if stack cmds with
        | (true, stack', cmds') => evalLoop ext z witness fuel cmds' stack' altstack
        | (false, _, _) => .fail
      else if n = 100 then
        match op_notif stack cmds with
        | (true, stack', cmds') => evalLoop ext z witness fuel cmds' stack' altstack
        | (false, _, _) => .fail
      else if n = 107 then
        match op_toaltstack stack altstack with
        | some (true, s, a) => evalLoop ext z witness fuel cmds s a
        | some (false, _, _) => .fail
        | none => .crash
      else if n = 108 then
        match op_fromaltstack stack altstack with
        | some (true, s, a) => evalLoop ext z witness fuel cmds s a
        | some (false, _, _) => .fail
        | none => .crash
      else if n = 172 then
        match op_checksig ext z stack with
        | some (true, stack') => evalLoop ext z witness fuel cmds stack' altstack
        | some (false, _) => .fail
        | none => .crash
      else
        match opBasic ext n stack with
        | some (true, stack') => evalLoop ext z witness fuel cmds stack' altstack
        | some (false, _) => .fail
        | none => .crash
    | .data bs =>
      match applyRules ext witness cmds (bs :: stack) bs with
      | .crash => .crash
      | .fail => .fail
      | .ok cmds' stack' => evalLoop ext z witness fuel cmds' stack' altstack

/-- Result of `Script.evaluate`: a Boolean, an uncaught exception, or
fuel exhaustion. -/
inductive EvalRes where
  | crash
  | val (b : Bool)
  | spin
deriving DecidableEq, Repr

/-- Script.evaluate: run the loop from empty stacks, then the final
check — fail on an empty stack, fail if the popped top is the empty byte
string, succeed otherwise. -/
def evaluate (ext : Ext) (fuel : Nat) (cmds : List Cmd) (z : Int)
    (witness : Option (List Cmd)) : EvalRes :=
  match evalLoop ext z witness fuel cmds [] [] with
  | .finish [] => .val false
  | .finish (top :: _) => if top = [] then .val false else .val true
  | .fail => .val false
  | .crash => .crash
  | .spin => .spin

/-- script.Script.is_p2sh_script_pubkey. -/
def is_p2sh_script_pubkey (cmds : List Cmd) : Bool :=
  match cmds with
  | [.op a, .data h, .op b] => a = 0xa9 && h.length = 20 && b = 0x87
  | _ => false

/-- script.Script.is_p2wpkh_script_pubkey. -/
def is_p2wpkh_script_pubkey (cmds : List Cmd) : Bool :=
  match cmds with
  | [.op a, .data h] => a = 0x00 && h.length = 20
  | _ => false

/-- script.Script.is_p2wsh_script_pubkey. -/
def is_p2wsh_script_pubkey (cmds : List Cmd) : Bool :=
  match cmds with
  | [.op a, .data h] => a = 0x00 && h.length = 32
  | _ => false

/-! ## tx.py: transactions

The `testnet`/`segwit` flags only affect address formatting and the
choice of serialization form, and the `_hash_prevouts`/`_hash_sequence`/
`_hash_outputs` fields memoize pure computations; neither affects the
verified operations, so they are not carried in the structures (the
memoized hashes are recomputed, which is observationally identical for a
pure `hash256`). The previous-output lookup (`TxFetcher` behind
`TxIn.value`/`TxIn.script_pubkey`) is the injected capability `Fetch`. -/

/-- tx.TxIn: the `witness` field is `some` only when `parse_segwit` has
set the attribute; reading it on a legacy-parsed input raises
`AttributeError`. -/
structure TxIn where
  prev_tx : B
  prev_index : Nat
  script_sig : Option (List Cmd)
  sequence : Nat
  witness : Option (List Cmd)
deriving DecidableEq, Repr

/-- tx.TxOut. -/
structure TxOut where
  amount : Nat
  script_pubkey : List Cmd
deriving DecidableEq, Repr

/-- tx.Tx. -/
structure Tx where
  version : Nat
  tx_inputs : List TxIn
  tx_outputs : List TxOut
  locktime : Nat
deriving DecidableEq, Repr

/-- The injected previous-output lookup:
`fetch prev_tx prev_index` is the spent `TxOut`, serving
`TxIn.script_pubkey` and `TxIn.value`. -/
abbrev Fetch := B → Nat → TxOut

/-- tx.TxIn.serialize (a `None` scriptSig serializes as the single byte
`0x00`). -/
def TxIn.serialize (txin : TxIn) : Option B := do
  let pi ← int_to_little_endian_chk txin.prev_index 4
  let ss ← match txin.script_sig with
    | none => some [0x00]
    | some s => Script.serialize s
  let sq ← int_to_little_endian_chk txin.sequence 4
  some (txin.prev_tx.reverse ++ pi ++ ss ++ sq)

/-- tx.TxOut.serialize. -/
def TxOut.serialize (txout : TxOut) : Option B := do
  let am ← int_to_little_endian_chk txout.amount 8
  let spk ← Script.serialize txout.script_pubkey
  some (am ++ spk)

/-- The per-input serialization loop of tx.Tx.sig_hash: every input's
scriptSig is blanked (`None`) except the target's, which becomes the
redeem script if given, else the spent output's scriptPubKey. -/
def sigHashInputs (fetch : Fetch) (inputs : List TxIn) (target : Nat)
    (redeem : Option (List Cmd)) (i : Nat) : Option B :=
  match inputs with
  | [] => some []
  | txin :: rest => do
    let ss : Option (List Cmd) :=
      if i = target then
        match redeem with
        | some r => some r
        | none => some (fetch txin.prev_tx txin.prev_index).script_pubkey
      else none
    let b ← TxIn.serialize ⟨txin.prev_tx, txin.prev_index, ss, txin.sequence, none⟩
    let bs ← sigHashInputs fetch rest target redeem (i + 1)
    some (b ++ bs)

/-- The output-serialization loop shared by tx.Tx.sig_hash and
tx.Tx.hash_outputs. -/
def serializeOutputs : List TxOut → Option B
  | [] => some []
  | o :: rest => do
    let b ← o.serialize
    let bs ← serializeOutputs rest
    some (b ++ bs)

/-- tx.Tx.sig_hash (legacy): rebuild the serialization with substituted
scriptSigs, append the 4-byte `SIGHASH_ALL`, double-SHA256, read
big-endian. -/
def sig_hash (ext : Ext) (fetch : Fetch) (tx : Tx) (input_index : Nat)
    (redeem : Option (List Cmd)) : Option Int := do
  let v ← int_to_little_endian_chk tx.version 4
  let nin ← encode_varint tx.tx_inputs.length
  let ins ← sigHashInputs fetch tx.tx_inputs input_index redeem 0
  let nout ← encode_varint tx.tx_outputs.length
  let outs ← serializeOutputs tx.tx_outputs
  let lock ← int_to_little_endian_chk tx.locktime 4
  let h := ext.hash256 (v ++ nin ++ ins ++ nout ++ outs ++ lock ++ int_to_little_endian 1 4)
  some (int_from_bytes_big h : Int)

/-- The `all_prevouts` accumulation of tx.Tx.hash_prevouts. -/
def allPrevouts : List TxIn → Option B
  | [] => some []
  | txin :: rest => do
    let pi ← int_to_little_endian_chk txin.prev_index 4
    let bs ← allPrevouts rest
    some (txin.prev_tx.reverse ++ pi ++ bs)

/-- The `all_sequence` accumulation of tx.Tx.hash_prevouts. -/
def allSequence : List TxIn → Option B
  | [] => some []
  | txin :: rest => do
    let sq ← int_to_little_endian_chk txin.sequence 4
    let bs ← allSequence rest
    some (sq ++ bs)

/-- tx.Tx.hash_prevouts (memoization elided; pure recomputation). -/
def hash_prevouts (ext : Ext) (tx : Tx) : Option B :=
  (allPrevouts tx.tx_inputs).map ext.hash256

/-- tx.Tx.hash_sequence. -/
def hash_sequence (ext : Ext) (tx : Tx) : Option B :=
  (allSequence tx.tx_inputs).map ext.hash256

/-- tx.Tx.hash_outputs. -/
def hash_outputs (ext : Ext) (tx : Tx) : Option B :=
  (serializeOutputs tx.tx_outputs).map ext.hash256

/-- tx.Tx.sig_hash_bip143: the BIP143 preimage. The script code is the
witness script's serialization if given, else a constructed
pay-to-pubkey-hash script over `cmds[1]` of the redeem script (if given)
or of the spent scriptPubKey. -/
def sig_hash_bip143 (ext : Ext) (fetch : Fetch) (tx : Tx) (input_index : Nat)
    (redeem witness_script : Option (List Cmd)) : Option Int := do
  let txin ← tx.tx_inputs[input_index]?
  let v ← int_to_little_endian_chk tx.version 4
  let hp ← hash_prevouts ext tx
  let hs ← hash_sequence ext tx
  let pi ← int_to_little_endian_chk txin.prev_index 4
  let script_code ← match witness_script with
    | some ws => Script.serialize ws
    | none =>
      match redeem with
      | some r => do
        let c ← r[1]?
        Script.serialize (p2pkh_script c)
      | none => do
        let c ← (fetch txin.prev_tx txin.prev_index).script_pubkey[1]?
        Script.serialize (p2pkh_script c)
  let amt ← int_to_little_endian_chk (fetch txin.prev_tx txin.prev_index).amount 8
  let sq ← int_to_little_endian_chk txin.sequence 4
  let ho ← hash_outputs ext tx
  let lk ← int_to_little_endian_chk tx.locktime 4
  let h := ext.hash256 (v ++ hp ++ hs ++ txin.prev_tx.reverse ++ pi ++ script_code
    ++ amt ++ sq ++ ho ++ lk ++ int_to_little_endian 1 4)
  some (int_from_bytes_big h : Int)

/-- The sighash/witness selection of tx.Tx.verify_input, up to the point
where `z` and `witness` have been assigned: classify the spent output's
locking script (P2SH — possibly wrapping P2WPKH — or plain P2WPKH, or
everything else on the legacy path) and compute `(z, witness)`
accordingly. `none` is any uncaught exception on the way (missing input
index, `None`/empty scriptSig in the P2SH arm, an `int` redeem command,
an oversized redeem element, a failing redeem parse, or a missing
`witness` attribute). -/
def verify_input_sel (ext : Ext) (fetch : Fetch) (tx : Tx) (input_index : Nat) :
    Option (Int × Option (List Cmd)) := do
  let txin ← tx.tx_inputs[input_index]?
  let spk := (fetch txin.prev_tx txin.prev_index).script_pubkey
  if is_p2sh_script_pubkey spk then
    match txin.script_sig with
    | none => none
    | some sigCmds =>
      match sigCmds.getLast? with
      | none => none
      | some (.op _) => none
      | some (.data bs) => do
        let lenByte ← int_to_little_endian_chk bs.length 1
        let (redeem, _) ← Script.parse (lenByte ++ bs)
        if is_p2wpkh_script_pubkey redeem then do
          let z ← sig_hash_bip143 ext fetch tx input_index (some redeem) none
          let w ← txin.witness
          some (z, some w)
        else do
          let z ← sig_hash ext fetch tx input_index (some redeem)
          some (z, none)
  else
    if is_p2wpkh_script_pubkey spk then do
      let z ← sig_hash_bip143 ext fetch tx input_index none none
      let w ← txin.witness
      some (z, some w)
    else do
      let z ← sig_hash ext fetch tx input_index none
      some (z, none)

/-- tx.Tx.verify_input: select `(z, witness)`, concatenate scriptSig and
scriptPubKey, and evaluate. -/
def verify_input (ext : Ext) (fetch : Fetch) (fuel : Nat) (tx : Tx)
    (input_index : Nat) : EvalRes :=
  match tx.tx_inputs[input_index]? with
  | none => .crash
  | some txin =>
    match verify_input_sel ext fetch tx input_index with
    | none => .crash
    | some (z, w) =>
      match txin.script_sig with
      | none => .crash
      | some sigCmds =>
        evaluate ext fuel
          (sigCmds ++ (fetch txin.prev_tx txin.prev_index).script_pubkey) z w

/-! ## tx.py: segwit parsing (for the witness data-model claim) -/

/-- tx.TxIn.parse over a byte-list stream. -/
def TxIn.parse (s : B) : Option (TxIn × B) := do
  let prev_tx := (s.take 32).reverse
  let s := s.drop 32
  let prev_index := little_endian_to_int (s.take 4)
  let (cmds, s) ← Script.parse (s.drop 4)
  let sequence := little_endian_to_int (s.take 4)
  some (⟨prev_tx, prev_index, some cmds, sequence, none⟩, s.drop 4)

/-- tx.TxOut.parse over a byte-list stream. -/
def TxOut.parse (s : B) : Option (TxOut × B) := do
  let amount := little_endian_to_int (s.take 8)
  let (cmds, s) ← Script.parse (s.drop 8)
  some (⟨amount, cmds⟩, s)

/-- The `for _ in range(n)` parse loops of tx.Tx.parse_segwit. -/
def parseMany {α : Type} (p : B → Option (α × B)) : Nat → B → Option (List α × B)
  | 0, s => some ([], s)
  | n + 1, s => do
    let (x, s) ← p s
    let (xs, s) ← parseMany p n s
    some (x :: xs, s)

/-- The witness-item loop of tx.Tx.parse_segwit: a declared zero-length
item is stored as the Python `int` `0` (`items.append(0)`), every other
item as the bytes read. -/
def parseWitnessItems : Nat → B → Option (List Cmd × B)
  | 0, s => some ([], s)
  | n + 1, s => do
    let (item_len, s) ← read_varint s
    if item_len = 0 then do
      let (items, s) ← parseWitnessItems n s
      some (.op 0 :: items, s)
    else do
      let (items, s') ← parseWitnessItems n (s.drop item_len)
      some (.data (s.take item_len) :: items, s')

/-- The per-input witness loop of tx.Tx.parse_segwit (`tx_in.witness =
items` for every input, in order). -/
def attachWitness : List TxIn → B → Option (List TxIn × B)
  | [], s => some ([], s)
  | txin :: rest, s => do
    let (num_items, s) ← read_varint s
    let (items, s) ← parseWitnessItems num_items s
    let (rest', s) ← attachWitness rest s
    some ({ txin with witness := some items } :: rest', s)

/-- tx.Tx.parse_segwit: version, the `0x00 0x01` marker/flag (anything
else raises `RuntimeError`), inputs, outputs, per-input witnesses,
locktime. -/
def parse_segwit (s : B) : Option (Tx × B) :=
  let version := little_endian_to_int (s.take 4)
  let s := s.drop 4
  if s.take 2 ≠ [0x00, 0x01] then none
  else do
    let (num_inputs, s) ← read_varint (s.drop 2)
    let (inputs, s) ← parseMany TxIn.parse num_inputs s
    let (num_outputs, s) ← read_varint s
    let (outputs, s) ← parseMany TxOut.parse num_outputs s
    let (inputs, s) ← attachWitness inputs s
    let locktime := little_endian_to_int (s.take 4)
    some (⟨version, inputs, outputs, locktime⟩, s.drop 4)

/-! ## Spec-side predicates -/

/-- Whether the command stream holds an `OP_ENDIF` matching an
`OP_IF`/`OP_NOTIF` just consumed, at the given nesting depth: nested
`OP_IF`/`OP_NOTIF` raise the depth, an `OP_ENDIF` at depth 1 is the
match, any other `OP_ENDIF` lowers the depth. This is the spec's notion
of "matching ENDIF"; `scanBranches_none` connects it to the engine's
scan. -/
def hasMatchingEndif : List Cmd → Nat → Bool
  | [], _ => false
  | .op n :: rest, depth =>
    if n = 99 ∨ n = 100 then hasMatchingEndif rest (depth + 1)
    else if n = 104 then
      if depth = 1 then true else hasMatchingEndif rest (depth - 1)
    else hasMatchingEndif rest depth
  | .data _ :: rest, depth => hasMatchingEndif rest depth

/-- The domain on which serialization is inverted by `Script.parse`: an
opcode must fit one byte and not be reinterpreted by the parser as a push
(byte values 1–75 introduce a direct push and 76/77 are the OP_PUSHDATA
markers, so only `0` and `78 ≤ n < 256` survive a round trip), and an
element must be non-empty (an empty element serializes as the single byte
`0x00`, which parses back as the opcode `OP_0`) and within the 520-byte
cap enforced by `raw_serialize`. -/
def validCmd : Cmd → Bool
  | .op n => n < 256 && (n = 0 || 78 ≤ n)
  | .data bs => 1 ≤ bs.length && bs.length ≤ 520

/-! ## Concrete instances used by witnesses and counterexamples -/

/-- A concrete external-capability instance: constant hashes and a
Signature Capability whose parse always fails (malformed encodings). -/
def extConst : Ext := ⟨fun _ => [], fun _ => [], fun _ => [], fun _ _ _ => none⟩

/-- The nested-control-flow script
`OP_1 OP_IF OP_1 OP_IF OP_2 OP_ELSE OP_3 OP_ENDIF OP_ELSE OP_4 OP_ENDIF`. -/
def nestedIfScript : List Cmd :=
  [.op 81, .op 99, .op 81, .op 99, .op 82, .op 103, .op 83, .op 104,
   .op 103, .op 84, .op 104]

/-- A lookup whose every spent output carries the P2WSH locking script
`OP_0 <32-byte hash>`. -/
def fetchP2wsh : Fetch := fun _ _ => ⟨0, [.op 0x00, .data (List.replicate 32 0)]⟩

/-- A one-input transaction whose input carries a (non-empty) witness. -/
def txP2wsh : Tx :=
  ⟨1, [⟨List.replicate 32 0, 0, some [], 0, some [.data [1]]⟩], [], 0⟩

/-- A minimal segwit byte stream: one input (empty scriptSig), no
outputs, one witness with a single declared-zero-length item. -/
def segwitBytes : B :=
  [1, 0, 0, 0] ++ [0, 1] ++ [1]
    ++ (List.replicate 32 0xaa ++ [0, 0, 0, 0] ++ [0] ++ [0xff, 0xff, 0xff, 0xff])
    ++ [0] ++ [1, 0] ++ [9, 0, 0, 0]

/-- The transaction `parse_segwit` produces from `segwitBytes`. -/
def segwitParsed : Tx :=
  ⟨1, [⟨List.replicate 32 0xaa, 0, some [], 0xffffffff, some [.op 0]⟩], [], 9⟩

/-! ## C1: op_checksig on malformed encodings -/

/-- C1 (counterexample): with a stack of two elements and a Signature
Capability whose parse fails, `op_checksig` returns falsy without pushing
anything — it does not push the encoding of 0 and report success as the
claim states. -/
theorem op_checksig_malformed_counterexample :
    op_checksig extConst 0 [[1], [2]] = some (false, []) ∧
      op_checksig extConst 0 [[1], [2]] ≠ some (true, [([] : B)]) :=
  ⟨rfl, by decide⟩

/-- C1 (amended): when the Signature Capability's parse fails on the
popped public key and signature, `op_checksig` reports failure (the
caught `ValueError`/`SyntaxError` becomes `return False`), failing the
script, with both elements consumed and nothing pushed. -/
theorem op_checksig_malformed_fails (ext : Ext) (z : Int) (sec sig : B)
    (rest : List B) (h : ext.checksig sec sig.dropLast z = none) :
    op_checksig ext z (sec :: sig :: rest) = some (false, rest) := by
  simp [op_checksig, h]

/-- C1 (witness): the amended theorem applied at a concrete stack. -/
theorem op_checksig_malformed_fails_witness :
    extConst.checksig [1] ([2] : B).dropLast 0 = none ∧
      op_checksig extConst 0 [[1], [2]] = some (false, []) :=
  ⟨rfl, op_checksig_malformed_fails extConst 0 [1] [2] [] rfl⟩

/-! ## C3: the end-state success condition of evaluate -/

/-- C3: `Script.evaluate` reports success iff the command loop finished
(stream exhausted, no opcode failure, no exception) with a non-empty
stack whose top is not the empty byte string (the sole falsy encoding);
it reports failure exactly when the loop failed or finished with an
empty stack or an empty-byte-string top. -/
theorem evaluate_success_iff (ext : Ext) (fuel : Nat) (cmds : List Cmd)
    (z : Int) (w : Option (List Cmd)) :
    (evaluate ext fuel cmds z w = .val true ↔
      ∃ top rest, evalLoop ext z w fuel cmds [] [] = .finish (top :: rest) ∧
        top ≠ []) ∧
    (evaluate ext fuel cmds z w = .val false ↔
      (evalLoop ext z w fuel cmds [] [] = .fail ∨
        evalLoop ext z w fuel cmds [] [] = .finish [] ∨
        ∃ rest, evalLoop ext z w fuel cmds [] [] = .finish ([] :: rest))) := by
  unfold evaluate
  rcases h : evalLoop ext z w fuel cmds [] [] with _ | _ | st | _
  · simp
  · simp
  · match st with
    | [] => simp
    | top :: rest =>
      by_cases htop : top = ([] : B) <;> simp [htop]
  · simp

/-! ## C4: nested control flow -/

/-- C4: the script `OP_1 OP_IF OP_1 OP_IF OP_2 OP_ELSE OP_3 OP_ENDIF
OP_ELSE OP_4 OP_ENDIF`, evaluated from an empty stack, finishes with the
minimal encoding of 2 as the only (top) stack element and evaluates
successfully, for every external capability and context. -/
theorem nested_if_evaluates_to_two (ext : Ext) (z : Int) (w : Option (List Cmd)) :
    evalLoop ext z w 50 nestedIfScript [] [] = .finish [encode_num 2] ∧
      evaluate ext 50 nestedIfScript z w = .val true ∧
      encode_num 2 = [2] :=
  ⟨rfl, rfl, rfl⟩

/-! ## C8: op_pick and op_roll -/

/-- C8: at the concrete stack `[index 0 encoding, 0x07]`, `op_roll`
moves the picked element but returns Python `None` (falsy), so it never
reports success; and at `[encoding of -1, 0x07]`, `op_pick` accepts the
negative index, copies the bottom element and reports success instead of
failing. Both contradict the claim (and spec section 4.2). -/
theorem op_roll_and_op_pick_diverge :
    op_roll [[], [7]] = some (false, [[7]]) ∧
      op_pick [[0x81], [7]] = some (true, [[7], [7]]) :=
  ⟨rfl, rfl⟩

/-! ## C5: unterminated IF/NOTIF -/

/-- The branch scan finds no terminating `OP_ENDIF` exactly when the
spec-side `hasMatchingEndif` predicate is false, for any accumulator
state. -/
theorem scanBranches_none (cmds : List Cmd) :
    ∀ n ifC elseC inE, hasMatchingEndif cmds n = false →
      scanBranches cmds n ifC elseC inE = none := by
  induction cmds with
  | nil => intro n ifC elseC inE _; rfl
  | cons c rest ih =>
    intro n ifC elseC inE h
    match c with
    | .op m =>
      simp only [hasMatchingEndif] at h
      simp only [scanBranches]
      by_cases h1 : m = 99 ∨ m = 100
      · rw [if_pos h1] at h
        rw [if_pos h1]
        exact ih _ _ _ _ h
      · rw [if_neg h1] at h
        rw [if_neg h1]
        by_cases h2 : m = 104
        · rw [if_pos h2] at h
          have h3 : ¬(n = 1 ∧ m = 103) := by
            rintro ⟨-, hm⟩; omega
          rw [if_neg h3, if_pos h2]
          rcases eq_or_ne n 1 with hn | hn
          -- an ENDIF at depth 1 would be the match, contradicting `h`
          · rw [if_pos hn] at h
            exact absurd h (by simp)
          · rw [if_neg hn] at h
            rw [if_neg hn]
            exact ih _ _ _ _ h
        · rw [if_neg h2] at h
          by_cases h3 : n = 1 ∧ m = 103
          · rw [if_pos h3]
            exact ih _ _ _ _ h
          · rw [if_neg h3, if_neg h2]
            exact ih _ _ _ _ h
    | .data bs =>
      simp only [hasMatchingEndif] at h
      simp only [scanBranches]
      exact ih _ _ _ _ h

/-- C5: an `OP_IF` (or `OP_NOTIF`) whose remaining command stream holds
no matching `OP_ENDIF` makes evaluation fail deterministically, for every
non-empty stack, every context and every fuel — the loop returns `fail`
(never `crash`, never `spin`). -/
theorem unterminated_if_fails (ext : Ext) (z : Int) (w : Option (List Cmd))
    (fuel : Nat) (e : B) (st alt : List B) (cmds : List Cmd)
    (h : hasMatchingEndif cmds 1 = false) :
    evalLoop ext z w (fuel + 1) (.op 99 :: cmds) (e :: st) alt = .fail ∧
      evalLoop ext z w (fuel + 1) (.op 100 :: cmds) (e :: st) alt = .fail := by
  have hscan := scanBranches_none cmds 1 [] [] false h
  constructor <;> simp [evalLoop, op_if, op_notif, hscan]

/-- C5 (witness): the theorem applied to `OP_IF` with nothing after it
and a one-element stack. -/
theorem unterminated_if_fails_witness :
    hasMatchingEndif [] 1 = false ∧
      evalLoop extConst 0 none 1 [Cmd.op 99] [[1]] [] = .fail :=
  ⟨rfl, (unterminated_if_fails extConst 0 none 0 [1] [] [] [] rfl).1⟩

/-! ## C9: op_fromaltstack on an empty altstack -/

/-- C9: with a non-empty main stack and an empty altstack,
`op_fromaltstack` raises `IndexError` (it guards the wrong stack and pops
the empty altstack), contradicting the claim that it reports failure
without an exception for every main stack; only the empty-main-stack case
returns the claimed clean failure. -/
theorem op_fromaltstack_empty_alt_crashes :
    op_fromaltstack [[1]] [] = none ∧
      op_fromaltstack [] [] = some (false, [], []) :=
  ⟨rfl, rfl⟩

/-! ## C2: verify_input classification of a P2WSH spent output -/

/-- C2 (counterexample): a spent output locking script of the P2WSH
pattern — which the code's own `is_p2wsh_script_pubkey` recognizes — is
routed by `verify_input` to the legacy path: the selection yields the
legacy sighash with `witness = None`, even though the input carries a
(non-`None`) witness, so the BIP143 sighash is not selected and the
input's witness is not passed into evaluation. -/
theorem verify_input_p2wsh_counterexample :
    is_p2wsh_script_pubkey (fetchP2wsh (List.replicate 32 0) 0).script_pubkey = true ∧
      verify_input_sel extConst fetchP2wsh txP2wsh 0 = some (0, none) ∧
      txP2wsh.tx_inputs.map TxIn.witness = [some [Cmd.data [1]]] ∧
      (none : Option (List Cmd)) ≠ some [Cmd.data [1]] :=
  ⟨rfl, rfl, rfl, by decide⟩

/-- C2 (amended): for every transaction input whose spent output's
locking script is the P2WSH pattern (`OP_0` followed by a 32-byte hash),
`verify_input`'s classification has no P2WSH arm: the pattern falls
through to the legacy branch, selecting the legacy `sig_hash` and a
`None` witness for evaluation (only P2SH-wrapped P2WPKH and plain P2WPKH
reach the BIP143 sighash and pass the input's witness). -/
theorem verify_input_p2wsh_takes_legacy_path (ext : Ext) (fetch : Fetch)
    (tx : Tx) (i : Nat) (txin : TxIn) (h32 : B)
    (hidx : tx.tx_inputs[i]? = some txin)
    (hspk : (fetch txin.prev_tx txin.prev_index).script_pubkey = [.op 0, .data h32])
    (hlen : h32.length = 32) :
    is_p2wsh_script_pubkey (fetch txin.prev_tx txin.prev_index).script_pubkey = true ∧
      verify_input_sel ext fetch tx i =
        (sig_hash ext fetch tx i none).map fun z => (z, none) := by
  constructor
  · rw [hspk]
    simp [is_p2wsh_script_pubkey, hlen]
  · have hp2sh : is_p2sh_script_pubkey [Cmd.op 0, Cmd.data h32] = false := rfl
    have hp2wpkh : is_p2wpkh_script_pubkey [Cmd.op 0, Cmd.data h32] = false := by
      simp [is_p2wpkh_script_pubkey, hlen]
    unfold verify_input_sel
    rw [hidx]
    simp only [Option.bind_eq_bind, Option.some_bind, hspk, hp2sh, hp2wpkh,
      Bool.false_eq_true, if_false]
    cases sig_hash ext fetch tx i none <;> rfl

/-- C2 (witness): the amended theorem applied at a concrete transaction
with a P2WSH spent output. -/
theorem verify_input_p2wsh_takes_legacy_path_witness :
    is_p2wsh_script_pubkey
        (fetchP2wsh (List.replicate 32 0) 0).script_pubkey = true ∧
      verify_input_sel extConst fetchP2wsh txP2wsh 0 =
        (sig_hash extConst fetchP2wsh txP2wsh 0 none).map fun z => (z, none) :=
  verify_input_p2wsh_takes_legacy_path extConst fetchP2wsh txP2wsh 0
    ⟨List.replicate 32 0, 0, some [], 0, some [.data [1]]⟩
    (List.replicate 32 0) rfl rfl (by simp)

/-! ## C7: push-form boundaries of serialization -/

/-- C7: serialization picks the push form by element length — 75 bytes
gets the single-byte length prefix, 76 bytes OP_PUSHDATA1, 256 bytes
OP_PUSHDATA2 (little-endian two-byte length), and 521 bytes is a hard
error (`ValueError`). -/
theorem push_form_boundaries (bs : B) :
    (bs.length = 75 → rawSerialize [.data bs] = some (75 :: bs)) ∧
      (bs.length = 76 → rawSerialize [.data bs] = some (76 :: 76 :: bs)) ∧
      (bs.length = 256 → rawSerialize [.data bs] = some (77 :: 0 :: 1 :: bs)) ∧
      (bs.length = 521 → rawSerialize [.data bs] = none) := by
  have h2 : int_to_little_endian 256 2 = [0, 1] := rfl
  refine ⟨fun h => ?_, fun h => ?_, fun h => ?_, fun h => ?_⟩ <;>
    simp [rawSerialize, h, h2]

/-- C7 (witness): the boundary theorem applied at concrete elements of
each length. -/
theorem push_form_boundaries_witness :
    rawSerialize [.data (List.replicate 75 7)] = some (75 :: List.replicate 75 7) ∧
      rawSerialize [.data (List.replicate 76 7)] =
        some (76 :: 76 :: List.replicate 76 7) ∧
      rawSerialize [.data (List.replicate 256 7)] =
        some (77 :: 0 :: 1 :: List.replicate 256 7) ∧
      rawSerialize [.data (List.replicate 521 7)] = none :=
  ⟨(push_form_boundaries _).1 (List.length_replicate 75 7),
   (push_form_boundaries _).2.1 (List.length_replicate 76 7),
   (push_form_boundaries _).2.2.1 (List.length_replicate 256 7),
   (push_form_boundaries _).2.2.2 (List.length_replicate 521 7)⟩

/-! ## C10: the shape of parsed witness items -/

/-- Every item produced by the witness-item loop is a byte string, except
a declared-zero-length item, which is stored as the `int` `0`. -/
theorem parseWitnessItems_shape :
    ∀ n s items s2, parseWitnessItems n s = some (items, s2) →
      ∀ it ∈ items, it.isBytes = true ∨ it = .op 0 := by
  intro n
  induction n with
  | zero =>
    intro s items s2 h it hit
    simp only [parseWitnessItems, Option.some.injEq, Prod.mk.injEq] at h
    obtain ⟨rfl, rfl⟩ := h
    simp at hit
  | succ n ih =>
    intro s items s2 h it hit
    simp only [parseWitnessItems, Option.bind_eq_bind, Option.bind_eq_some] at h
    obtain ⟨⟨len, s1⟩, -, h⟩ := h
    by_cases hl : len = 0
    · rw [if_pos hl] at h
      simp only [Option.bind_eq_some] at h
      obtain ⟨⟨items0, s3⟩, hp, heq⟩ := h
      simp only [Option.some.injEq, Prod.mk.injEq] at heq
      obtain ⟨rfl, rfl⟩ := heq
      rcases List.mem_cons.mp hit with rfl | hit
      · exact Or.inr rfl
      · exact ih _ _ _ hp _ hit
    · rw [if_neg hl] at h
      simp only [Option.bind_eq_some] at h
      obtain ⟨⟨items0, s3⟩, hp, heq⟩ := h
      simp only [Option.some.injEq, Prod.mk.injEq] at heq
      obtain ⟨rfl, rfl⟩ := heq
      rcases List.mem_cons.mp hit with rfl | hit
      · exact Or.inl rfl
      · exact ih _ _ _ hp _ hit

/-- Every input coming out of the per-input witness loop has its
`witness` attribute set, and its items have the `parseWitnessItems`
shape. -/
theorem attachWitness_shape :
    ∀ ins s outs s2, attachWitness ins s = some (outs, s2) →
      ∀ txin ∈ outs, ∃ items, txin.witness = some items ∧
        ∀ it ∈ items, it.isBytes = true ∨ it = .op 0 := by
  intro ins
  induction ins with
  | nil =>
    intro s outs s2 h txin hmem
    simp only [attachWitness, Option.some.injEq, Prod.mk.injEq] at h
    obtain ⟨rfl, rfl⟩ := h
    simp at hmem
  | cons ti rest ih =>
    intro s outs s2 h txin hmem
    simp only [attachWitness, Option.bind_eq_bind, Option.bind_eq_some] at h
    obtain ⟨⟨num, s1⟩, -, h⟩ := h
    obtain ⟨⟨items, s2'⟩, hitems, h⟩ := h
    obtain ⟨⟨rest', s3⟩, hrest, heq⟩ := h
    simp only [Option.some.injEq, Prod.mk.injEq] at heq
    obtain ⟨rfl, rfl⟩ := heq
    rcases List.mem_cons.mp hmem with rfl | hmem
    · exact ⟨items, rfl, parseWitnessItems_shape _ _ _ _ hitems⟩
    · exact ih _ _ _ hrest _ hmem

/-- C10 (counterexample): parsing a minimal segwit stream whose single
witness declares one zero-length item stores the `int` `0` — not the
empty byte string — as the witness item, so not every stored witness
item is a byte string. -/
theorem segwit_zero_length_item_counterexample :
    parse_segwit segwitBytes = some (segwitParsed, []) ∧
      segwitParsed.tx_inputs.map TxIn.witness = [some [Cmd.op 0]] ∧
      (Cmd.op 0).isBytes = false :=
  ⟨rfl, rfl, rfl⟩

/-- C10 (amended): for every byte stream accepted by `parse_segwit`,
every input's witness is set, and every stored item is either a byte
string or the `int` `0` standing for a declared zero-length item. -/
theorem segwit_witness_items (s : B) (tx : Tx) (rest : B)
    (h : parse_segwit s = some (tx, rest)) :
    ∀ txin ∈ tx.tx_inputs, ∃ items, txin.witness = some items ∧
      ∀ it ∈ items, it.isBytes = true ∨ it = .op 0 := by
  simp only [parse_segwit] at h
  split at h
  · exact absurd h (by simp)
  · simp only [Option.bind_eq_bind, Option.bind_eq_some] at h
    obtain ⟨⟨nin, s1⟩, -, h⟩ := h
    obtain ⟨⟨ins, s2⟩, -, h⟩ := h
    obtain ⟨⟨nout, s3⟩, -, h⟩ := h
    obtain ⟨⟨outs, s4⟩, -, h⟩ := h
    obtain ⟨⟨ins2, s5⟩, hw, heq⟩ := h
    simp only [Option.some.injEq, Prod.mk.injEq] at heq
    obtain ⟨rfl, -⟩ := heq
    exact attachWitness_shape _ _ _ _ hw

/-- C10 (witness): the amended theorem applied to the concrete stream
and its single parsed input. -/
theorem segwit_witness_items_witness :
    ∃ items,
      (⟨List.replicate 32 0xaa, 0, some [], 0xffffffff, some [.op 0]⟩ : TxIn).witness
          = some items ∧
        ∀ it ∈ items, it.isBytes = true ∨ it = .op 0 :=
  segwit_witness_items segwitBytes segwitParsed [] rfl
    ⟨List.replicate 32 0xaa, 0, some [], 0xffffffff, some [.op 0]⟩
    (List.mem_cons_self _ _)

/-! ## C6: parse / serialize round trip -/

/-- A fixed-width little-endian encoding has the declared width. -/
theorem length_int_to_little_endian :
    ∀ (l num : Nat), (int_to_little_endian num l).length = l
  | 0, _ => rfl
  | l + 1, num => by
    simp [int_to_little_endian, length_int_to_little_endian l]

/-- Reading back a fixed-width little-endian encoding recovers an
in-range value. -/
theorem little_endian_to_int_inv :
    ∀ (l num : Nat), num < 256 ^ l →
      little_endian_to_int (int_to_little_endian num l) = num := by
  intro l
  induction l with
  | zero =>
    intro num h
    have : num = 0 := by simpa using Nat.lt_one_iff.mp (by simpa using h)
    subst this
    rfl
  | succ l ih =>
    intro num h
    have hdiv : num / 256 < 256 ^ l := by
      rw [Nat.div_lt_iff_lt_mul (by norm_num)]
      calc num < 256 ^ (l + 1) := h
        _ = 256 ^ l * 256 := by ring
    rw [int_to_little_endian, little_endian_to_int, ih (num / 256) hdiv]
    omega

/-- Reading back a varint encoding recovers the value, leaving the
trailing bytes untouched. -/
theorem read_varint_encode_varint (L : Nat) (v rest : B)
    (h : encode_varint L = some v) : read_varint (v ++ rest) = some (L, rest) := by
  unfold encode_varint at h
  split_ifs at h with h1 h2 h3 h4
  · obtain rfl := Option.some.inj h
    have e1 : L ≠ 0xfd := by omega
    have e2 : L ≠ 0xfe := by omega
    have e3 : L ≠ 0xff := by omega
    simp [read_varint, e1, e2, e3]
  · obtain rfl := Option.some.inj h
    have hl : (int_to_little_endian L 2).length = 2 := length_int_to_little_endian 2 L
    simp [read_varint, List.take_left' hl, List.drop_left' hl,
      little_endian_to_int_inv 2 L (by norm_num at h2 ⊢; omega)]
  · obtain rfl := Option.some.inj h
    have hl : (int_to_little_endian L 4).length = 4 := length_int_to_little_endian 4 L
    simp [read_varint, List.take_left' hl, List.drop_left' hl,
      little_endian_to_int_inv 4 L (by norm_num at h3 ⊢; omega)]
  · obtain rfl := Option.some.inj h
    have hl : (int_to_little_endian L 8).length = 8 := length_int_to_little_endian 8 L
    simp [read_varint, List.take_left' hl, List.drop_left' hl,
      little_endian_to_int_inv 8 L (by norm_num at h4 ⊢; omega)]

/-- The parse loop inverts `raw_serialize` on valid command lists: run on
the serialized bytes followed by anything, with the declared length set
to `count` plus the serialized length, it reads back exactly the
commands, ends at the declared length, and leaves the trailer
untouched — for any starting `count` and any sufficient fuel. -/
theorem parseLoop_serialized :
    ∀ (cmds : List Cmd) (r : B), (∀ c ∈ cmds, validCmd c = true) →
      rawSerialize cmds = some r →
      ∀ (fuel count L : Nat) (rest : B), r.length < fuel →
        L = count + r.length →
        parseLoop fuel (r ++ rest) L count = some (cmds, L, rest) := by
  intro cmds
  induction cmds with
  | nil =>
    intro r _ hr fuel count L rest hfuel hL
    obtain rfl := Option.some.inj hr
    simp only [List.length_nil] at hL
    obtain ⟨f, rfl⟩ : ∃ f, fuel = f + 1 := ⟨fuel - 1, by omega⟩
    simp only [List.nil_append, parseLoop]
    rw [if_neg (show ¬count < L by omega), show L = count by omega]
  | cons c cs ih =>
    intro r hv hr fuel count L rest hfuel hL
    have hvc : validCmd c = true := hv c (List.mem_cons_self c cs)
    have hvcs : ∀ x ∈ cs, validCmd x = true :=
      fun x hx => hv x (List.mem_cons_of_mem _ hx)
    match c with
    | .op n =>
      simp only [validCmd, Bool.and_eq_true, Bool.or_eq_true,
        decide_eq_true_eq] at hvc
      simp only [rawSerialize, if_pos hvc.1] at hr
      obtain ⟨r', hr', rfl⟩ := Option.map_eq_some'.mp hr
      have hrlen : (n :: r').length = r'.length + 1 := by simp
      rw [hrlen] at hfuel hL
      obtain ⟨f, rfl⟩ : ∃ f, fuel = f + 1 := ⟨fuel - 1, by omega⟩
      have g1 : ¬(1 ≤ n ∧ n ≤ 75) := by rcases hvc.2 with h | h <;> omega
      have g2 : n ≠ 76 := by rcases hvc.2 with h | h <;> omega
      have g3 : n ≠ 77 := by rcases hvc.2 with h | h <;> omega
      rw [show ((n :: r') ++ rest) = n :: (r' ++ rest) from rfl]
      simp only [parseLoop]
      rw [if_pos (show count < L by omega), if_neg g1, if_neg g2, if_neg g3]
      rw [ih r' hvcs hr' f (count + 1) L rest (by omega) (by omega)]
      rfl
    | .data bs =>
      simp only [validCmd, Bool.and_eq_true, decide_eq_true_eq] at hvc
      obtain ⟨hb1, hb520⟩ := hvc
      simp only [rawSerialize] at hr
      obtain ⟨r', hr', hif⟩ := Option.bind_eq_some.mp hr
      have htake : (bs ++ (r' ++ rest)).take bs.length = bs :=
        List.take_left' rfl
      have hdrop : (bs ++ (r' ++ rest)).drop bs.length = r' ++ rest :=
        List.drop_left' rfl
      by_cases hle : bs.length ≤ 75
      · rw [if_pos hle] at hif
        obtain rfl := Option.some.inj hif
        have hrlen : (bs.length :: bs ++ r').length = bs.length + r'.length + 1 := by
          simp
        rw [hrlen] at hfuel hL
        obtain ⟨f, rfl⟩ : ∃ f, fuel = f + 1 := ⟨fuel - 1, by omega⟩
        rw [show ((bs.length :: bs ++ r') ++ rest) =
          bs.length :: (bs ++ (r' ++ rest)) by simp]
        simp only [parseLoop]
        rw [if_pos (show count < L by omega)]
        rw [if_pos (show 1 ≤ bs.length ∧ bs.length ≤ 75 from ⟨hb1, hle⟩)]
        rw [htake, hdrop]
        rw [ih r' hvcs hr' f (count + 1 + bs.length) L rest (by omega) (by omega)]
        rfl
      · by_cases hle2 : bs.length < 256
        · rw [if_neg hle, if_pos ⟨by omega, hle2⟩] at hif
          obtain rfl := Option.some.inj hif
          have hrlen : (76 :: bs.length :: bs ++ r').length =
              bs.length + r'.length + 2 := by simp; try omega
          rw [hrlen] at hfuel hL
          obtain ⟨f, rfl⟩ : ∃ f, fuel = f + 1 := ⟨fuel - 1, by omega⟩
          rw [show ((76 :: bs.length :: bs ++ r') ++ rest) =
            76 :: bs.length :: (bs ++ (r' ++ rest)) by simp]
          simp only [parseLoop]
          rw [if_pos (show count < L by omega)]
          rw [if_neg (show ¬(1 ≤ 76 ∧ 76 ≤ 75) by omega)]
          rw [if_pos True.intro]
          simp only [List.take_cons, List.take_zero, List.drop_succ_cons,
            List.drop_zero]
          have hlit : little_endian_to_int [bs.length] = bs.length := by
            simp [little_endian_to_int]
          rw [show List.take 1 (bs.length :: (bs ++ (r' ++ rest))) =
            [bs.length] from rfl]
          rw [hlit, htake, hdrop]
          rw [ih r' hvcs hr' f (count + 1 + bs.length + 1) L rest (by omega)
            (by omega)]
          rfl
        · rw [if_neg hle, if_neg (by omega), if_pos ⟨by omega, hb520⟩] at hif
          obtain rfl := Option.some.inj hif
          have hl2 : (int_to_little_endian bs.length 2).length = 2 :=
            length_int_to_little_endian 2 bs.length
          have hrlen : (77 :: int_to_little_endian bs.length 2 ++ bs ++ r').length =
              bs.length + r'.length + 3 := by simp [hl2]; try omega
          rw [hrlen] at hfuel hL
          obtain ⟨f, rfl⟩ : ∃ f, fuel = f + 1 := ⟨fuel - 1, by omega⟩
          rw [show ((77 :: int_to_little_endian bs.length 2 ++ bs ++ r') ++ rest) =
            77 :: (int_to_little_endian bs.length 2 ++ (bs ++ (r' ++ rest))) by simp]
          simp only [parseLoop]
          rw [if_pos (show count < L by omega)]
          rw [if_neg (show ¬(1 ≤ 77 ∧ 77 ≤ 75) by omega)]
          rw [if_neg (show (77 : Nat) ≠ 76 by omega)]
          rw [if_pos True.intro]
          rw [List.take_left' hl2, List.drop_left' hl2]
          rw [little_endian_to_int_inv 2 bs.length (by omega)]
          rw [htake, hdrop]
          rw [ih r' hvcs hr' f (count + 1 + bs.length + 2) L rest (by omega)
            (by omega)]
          rfl

/-- The parse loop's result does not depend on the fuel, as long as the
fuel exceeds the stream length (each iteration consumes at least one
byte) — so `Script.parse`'s choice of `s.length + 1` is canonical. -/
theorem parseLoop_fuel :
    ∀ (fuel : Nat) (s : B) (fuel' length count : Nat),
      s.length < fuel → s.length < fuel' →
      parseLoop fuel s length count = parseLoop fuel' s length count := by
  intro fuel
  induction fuel with
  | zero => intro s fuel' length count h _; omega
  | succ f ih =>
    intro s fuel' length count h h'
    obtain ⟨f', rfl⟩ : ∃ k, fuel' = k + 1 := ⟨fuel' - 1, by omega⟩
    simp only [parseLoop]
    by_cases hc : count < length
    · rw [if_pos hc, if_pos hc]
      match s, h, h' with
      | [], _, _ => rfl
      | b :: rest, h, h' =>
        have hr : rest.length < f := by simp at h; omega
        have hr' : rest.length < f' := by simp at h'; omega
        by_cases g1 : 1 ≤ b ∧ b ≤ 75
        · simp only [if_pos g1]
          rw [ih (rest.drop b) f' length (count + 1 + b)
            (by simp [List.length_drop]; omega) (by simp [List.length_drop]; omega)]
        · by_cases g2 : b = 76
          · simp only [if_neg g1, if_pos g2]
            rw [ih ((rest.drop 1).drop (little_endian_to_int (rest.take 1)))
              f' length (count + 1 + little_endian_to_int (rest.take 1) + 1)
              (by simp [List.length_drop]; omega) (by simp [List.length_drop]; omega)]
          · by_cases g3 : b = 77
            · simp only [if_neg g1, if_neg g2, if_pos g3]
              rw [ih ((rest.drop 2).drop (little_endian_to_int (rest.take 2)))
                f' length (count + 1 + little_endian_to_int (rest.take 2) + 2)
                (by simp [List.length_drop]; omega) (by simp [List.length_drop]; omega)]
            · simp only [if_neg g1, if_neg g2, if_neg g3]
              rw [ih rest f' length (count + 1) hr hr']
    · rw [if_neg hc, if_neg hc]

/-- C6 (counterexample): serialize-after-parse is not the identity on
well-formed encodings. The encoding `[3, 76, 1, 0xaa]` (declared length
3, OP_PUSHDATA1, length 1, one byte) is accepted by `Script.parse`, but
serializing the result re-encodes the 1-byte element with a single-byte
length prefix, producing the different byte string `[2, 1, 0xaa]`. -/
theorem serialize_parse_not_inverse :
    Script.parse [3, 76, 1, 0xaa] = some ([Cmd.data [0xaa]], []) ∧
      Script.serialize [Cmd.data [0xaa]] = some [2, 1, 0xaa] ∧
      ([2, 1, 0xaa] : B) ≠ [3, 76, 1, 0xaa] :=
  ⟨rfl, rfl, by decide⟩

/-- C6 (amended): the round trip `parse (serialize s) = s` holds for
scripts whose opcode commands are single-byte values not reinterpreted as
pushes (0 or 78–255) and whose elements are non-empty and at most 520
bytes — equivalently, `serialize (parse b) = b` holds exactly for
encodings `b` in the image of `serialize` on such scripts (minimal push
forms); `parse` also accepts non-minimal encodings, on which the round
trip through `serialize` canonicalizes the bytes instead of reproducing
them. -/
theorem parse_serialize_roundtrip (cmds : List Cmd) (b : B)
    (hvalid : ∀ c ∈ cmds, validCmd c = true)
    (hser : Script.serialize cmds = some b) :
    Script.parse b = some (cmds, []) := by
  unfold Script.serialize at hser
  simp only [Option.bind_eq_bind, Option.bind_eq_some] at hser
  obtain ⟨r, hr, v, hv, heq⟩ := hser
  obtain rfl := Option.some.inj heq
  unfold Script.parse
  rw [read_varint_encode_varint r.length v r hv]
  simp only [Option.bind_eq_bind, Option.some_bind]
  have hmain := parseLoop_serialized cmds r hvalid hr (r.length + 1) 0 r.length []
    (by omega) (by omega)
  rw [show r ++ ([] : B) = r by simp] at hmain
  rw [hmain]
  simp

/-- C6 (witness): the round-trip theorem applied at a concrete script
with one opcode and one element. -/
theorem parse_serialize_roundtrip_witness :
    Script.serialize [Cmd.op 0, Cmd.data [5]] = some [3, 0, 1, 5] ∧
      Script.parse [3, 0, 1, 5] = some ([Cmd.op 0, Cmd.data [5]], []) :=
  ⟨rfl, parse_serialize_roundtrip [Cmd.op 0, Cmd.data [5]] [3, 0, 1, 5]
    (by decide) rfl⟩

end BitcoinLib
